import Mathlib

/-!
Verification of the crawl pipeline of `fiction_scraper/spider.py`.

The source is shallowly embedded:

* HTML trees (lxml elements) become the mutual inductive `Node` / `NodeList`;
  the `lxml.html.builder` constructors `E.BODY`, `E.HEAD`, `E.HTML`, `E.META`,
  `E.TITLE` become the element builders below.
* The metadata dict `self.metadata` becomes an insertion-ordered association
  list with Python-dict update semantics (`dictSet`: updating an existing key
  keeps its position, a new key is appended).
* `parse(url)` is a generator that yields elements and may write metadata as a
  side effect.  A run of the generator is embedded as the list of events it
  emits in order (`ParseEvent.yield_` / `ParseEvent.setMeta`), followed
  optionally by a raised exception (`parseErr`).  `E.BODY(*self.parse(url))`
  consumes the whole generator, so `crawl` folds the full event list.
* Filters mutate the body in place; in the embedding a filter is a function
  `Node → Except ε Node` and the `for f in self.filters: f(body)` loop is
  `applyFilters`, which threads the body and aborts on the first error.
* The lxml serializer is an external black box; it is a parameter
  `render : method → pretty_print → doctype → Node → String`.  Both output
  paths of `crawl` call it with the arguments the source passes
  (`doc.getroottree().write(..., method='html', pretty_print=True,
  doctype='<!doctype html>')` and `tostring(doc, pretty_print=True,
  doctype='<!doctype html>')`, whose `method` defaults to `'html'` in
  `lxml.html`).  Writing to the output file is a parameter
  `write : String → Except ε ρ` consuming the rendered text (UTF-8 encoding
  of a string is injective, so byte equality of the written bytes is string
  equality of the rendered text).
* `requests.Session.get` and `lxml.html.document_fromstring` are external:
  the network is a parameter `net : String → HttpResponse` (with `url` the
  final, post-redirect response URL, as in `requests`) and the HTML parser a
  parameter `parseHtml : String → Node`.  `make_links_absolute` is modelled
  concretely from lxml's documented behaviour: every link attribute is
  rewritten through URL resolution against the document base (`urljoin`
  below; a simplified RFC 3986 merge covering already-absolute,
  scheme-relative, root-relative and path-relative references, without
  dot-segment, query or fragment handling).
-/

namespace FictionScraper

/-! Part 1: HTML trees -/

mutual

inductive Node where
  | text : String → Node
  | elem : String → List (String × String) → NodeList → Node

inductive NodeList where
  | nil : NodeList
  | cons : Node → NodeList → NodeList

end

def NodeList.ofList : List Node → NodeList
  | [] => .nil
  | n :: r => .cons n (NodeList.ofList r)

/-- Builder `E.META(charset="UTF-8")`. -/
def charsetMeta : Node := .elem "meta" [("charset", "UTF-8")] .nil

/-- Builder `E.TITLE(content)`. -/
def titleElem (content : String) : Node := .elem "title" [] (.cons (.text content) .nil)

/-- Builder `E.META(name=name, content=content)`. -/
def metaElem (name content : String) : Node :=
  .elem "meta" [("name", name), ("content", content)] .nil

/-! Part 2: the metadata dict -/

/-- Insertion-ordered mapping, as a Python dict of strings. -/
abbrev Metadata : Type := List (String × String)

/-- Python dict update `m[k] = v`: an existing key keeps its position and gets
the new value, a fresh key is appended at the end. -/
def dictSet (m : Metadata) (k v : String) : Metadata :=
  if (List.any m fun p => p.1 = k) then
    List.map (fun p => if p.1 = k then (k, v) else p) m
  else
    m ++ [(k, v)]

/-! Part 3: the parse generator as an event trace -/

/-- One observable step of `parse(url)`: either an element is yielded into the
body, or `self.metadata[k] = v` is executed. -/
inductive ParseEvent where
  | yield_ : Node → ParseEvent
  | setMeta : String → String → ParseEvent

def applyEvent (m : Metadata) : ParseEvent → Metadata
  | .yield_ _ => m
  | .setMeta k v => dictSet m k v

/-- Metadata state after the generator has emitted `evs`, starting from `m`. -/
def metaAfter (m : Metadata) (evs : List ParseEvent) : Metadata :=
  List.foldl applyEvent m evs

/-- The elements the generator yielded, in order. -/
def yields (evs : List ParseEvent) : List Node :=
  List.filterMap (fun e => match e with | .yield_ n => some n | .setMeta _ _ => none) evs

/-! Part 4: spider state and the crawl pipeline -/

/-- A `Spider` instance, as the `crawl` pipeline sees it: the current
`self.metadata` dict, the behaviour of the abstract `parse` (the events one
run on a given URL emits, and the exception it raises after them, if any),
and the configured `self.filters` list. -/
structure Spider (ε : Type) where
  metadata : Metadata
  parseEvents : String → List ParseEvent
  parseErr : String → Option ε
  filters : List (Node → Except ε Node)

/-- The loop `for f in self.filters: f(body)` — each filter is applied once, in list
order, to the current body; an exception aborts the loop. -/
def applyFilters {ε : Type} (fs : List (Node → Except ε Node)) (body : Node) :
    Except ε Node :=
  match fs with
  | [] => .ok body
  | f :: rest =>
    match f body with
    | .ok b => applyFilters rest b
    | .error e => .error e

/-! Part 5: metadata projection and document assembly -/

/-- The per-entry loop of `_generate_meadata_elements`. -/
def genEntries : Metadata → List Node
  | [] => []
  | (name, content) :: rest =>
    (if name = "title" then titleElem content else metaElem name content) :: genEntries rest

/-- Source `Spider._generate_meadata_elements`: one charset `<meta>` first, then one
element per metadata entry in insertion order. -/
def generate_meadata_elements (m : Metadata) : List Node :=
  charsetMeta :: genEntries m

/-- Builder call `E.BODY(*self.parse(url))`: the body wrapper around the yielded nodes. -/
def bodyNode {ε : Type} (s : Spider ε) (url : String) : Node :=
  .elem "body" [] (NodeList.ofList (yields (s.parseEvents url)))

/-- Assembly `doc = E.HTML(E.HEAD(*self._generate_meadata_elements()), body)`. -/
def assemble (m : Metadata) (body : Node) : Node :=
  .elem "html" []
    (.cons (.elem "head" [] (NodeList.ofList (generate_meadata_elements m)))
      (.cons body .nil))

/-- The metadata dict `crawl` leaves behind: it is cleared at the start of the
call, then only the parse events of this call write to it. -/
def crawlMeta {ε : Type} (s : Spider ε) (url : String) : Metadata :=
  metaAfter [] (s.parseEvents url)

/-- Stages of `crawl` up to document assembly: clear the metadata, consume the
`parse` generator into the body (all its metadata writes land), run the filter
chain, project metadata into the head and assemble the `html` element.
Any raised exception aborts with that error. -/
def crawlDoc {ε : Type} (s : Spider ε) (url : String) : Except ε Node :=
  let evs := s.parseEvents url
  let m := metaAfter [] evs
  match s.parseErr url with
  | some e => .error e
  | none =>
    match applyFilters s.filters (bodyNode s url) with
    | .error e => .error e
    | .ok body2 => .ok (assemble m body2)

/-- What a successful `crawl` returns. -/
inductive CrawlResult (ρ : Type) where
  | str : String → CrawlResult ρ
  | written : ρ → CrawlResult ρ

/-- Source `Spider.crawl(url, output_file=None)`.

`render` is the external lxml serializer (arguments: method, pretty_print,
doctype, document); `output` is the optional output file, as the external
write of the rendered text, returning whatever the lxml `write` call returns.
The result pairs crawl's return value (or raised error) with the final
`self.metadata`. -/
def crawl {ε ρ : Type} (render : String → Bool → String → Node → String)
    (s : Spider ε) (url : String) (output : Option (String → Except ε ρ)) :
    Except ε (CrawlResult ρ) × Metadata :=
  (match crawlDoc s url with
   | .error e => .error e
   | .ok doc =>
     match output with
     | some write =>
       /- `return doc.getroottree().write(output_file, encoding='UTF-8',
          method='html', pretty_print=True, doctype='<!doctype html>')` -/
       match write (render "html" true "<!doctype html>" doc) with
       | .error e => .error e
       | .ok r => .ok (.written r)
     | none =>
       /- `return tostring(doc, encoding='unicode', pretty_print=True,
          doctype='<!doctype html>')`; `lxml.html.tostring` serializes with
          `method='html'` by default -/
       .ok (.str (render "html" true "<!doctype html>" doc)),
   crawlMeta s url)

/-! Part 6: the fetcher, URL resolution and link absolutization -/

/-- Split an absolute URL at its first `"://"`, returning the scheme part and
the remainder. -/
def splitSchemeSep : List Char → Option (List Char × List Char)
  | [] => none
  | c :: rest =>
    if c = ':' ∧ List.take 2 rest = ['/', '/'] then some ([], List.drop 2 rest)
    else Option.map (fun p => (c :: p.1, p.2)) (splitSchemeSep rest)

/-- A URL is absolute when it carries a `scheme://` part. -/
def urlIsAbsolute (s : String) : Bool :=
  (splitSchemeSep s.toList).isSome

/-- The directory part of a path: everything up to and including the last
slash, or `"/"` when the path has none. -/
def dirSlash (path : List Char) : List Char :=
  let d := (List.dropWhile (fun c => c ≠ '/') path.reverse).reverse
  if d = [] then ['/'] else d

/-- Resolution of a reference against a base URL, as `urllib.parse.urljoin`
(used by lxml's `make_links_absolute`) behaves on the common cases: an
already-absolute reference is kept; `//host/...` inherits the base scheme;
`/path` is anchored at the base host; anything else replaces the last path
segment of the base.  Dot segments, queries and fragments are not modelled. -/
def urljoinL (base rel : List Char) : List Char :=
  if (splitSchemeSep rel).isSome then rel
  else
    match splitSchemeSep base with
    | none => rel
    | some (sch, rest) =>
      match rel with
      | '/' :: '/' :: t => sch ++ ':' :: '/' :: '/' :: t
      | '/' :: t => sch ++ ':' :: '/' :: '/' :: (List.takeWhile (fun c => c ≠ '/') rest ++ '/' :: t)
      | _ =>
        let host := List.takeWhile (fun c => c ≠ '/') rest
        let path := List.drop host.length rest
        sch ++ ':' :: '/' :: '/' :: (host ++ dirSlash path ++ rel)

def urljoin (base rel : String) : String :=
  ⟨urljoinL base.toList rel.toList⟩

/-- The attributes `make_links_absolute` rewrites. -/
def isLinkAttr (k : String) : Bool :=
  k = "href" || k = "src"

mutual

/-- lxml's `Element.make_links_absolute()`: every link attribute anywhere in
the tree is resolved against the document base URL. -/
def make_links_absolute (base : String) : Node → Node
  | .text s => .text s
  | .elem t attrs ch =>
    .elem t
      (List.map (fun p => if isLinkAttr p.1 then (p.1, urljoin base p.2) else p) attrs)
      (make_links_absolute_list base ch)

def make_links_absolute_list (base : String) : NodeList → NodeList
  | .nil => .nil
  | .cons n r => .cons (make_links_absolute base n) (make_links_absolute_list base r)

end

mutual

/-- All link attribute values in a tree, in document order. -/
def nodeLinks : Node → List String
  | .text _ => []
  | .elem _ attrs ch =>
    List.map Prod.snd (List.filter (fun p => isLinkAttr p.1) attrs) ++ listLinks ch

def listLinks : NodeList → List String
  | .nil => []
  | .cons n r => nodeLinks n ++ listLinks r

end

/-- The part of a `requests` response `fetch` reads: the body bytes and the
final URL after redirects (`r.url`). -/
structure HttpResponse where
  content : String
  url : String

/-- Source `Spider.fetch(url)`: `r = self._session.get(url)` (redirects followed by
`requests`, `r.url` the final URL), `doc = document_fromstring(r.content,
base_url=r.url)`, `doc.make_links_absolute()`.  `net` is the external
transport, `parseHtml` the external HTML parser. -/
def fetch (net : String → HttpResponse) (parseHtml : String → Node) (url : String) : Node :=
  let r := net url
  make_links_absolute r.url (parseHtml r.content)

/-! Part 7: observation helpers used by the statements -/

/-- True when a parse run writes nothing to the metadata dict. -/
def noMetaWrites (evs : List ParseEvent) : Bool :=
  List.all evs fun e => match e with | .setMeta _ _ => false | .yield_ _ => true

def isYieldEv : ParseEvent → Bool
  | .yield_ _ => true
  | .setMeta _ _ => false

def isSetEv : ParseEvent → Bool
  | .yield_ _ => false
  | .setMeta _ _ => true

/-- The same parse run written as an explicit two-phase producer: first all
yielded elements, then all metadata writes. -/
def phasedEvents (evs : List ParseEvent) : List ParseEvent :=
  List.filter isYieldEv evs ++ List.filter isSetEv evs

/-- First child of the document root: the generated `<head>` element. -/
def getHead : Node → Option Node
  | .elem _ _ (.cons h _) => some h
  | _ => none

def isTitleNode : Node → Bool
  | .elem t _ _ => t = "title"
  | .text _ => false

def countTitlesNL : NodeList → Nat
  | .nil => 0
  | .cons n r => (if isTitleNode n then 1 else 0) + countTitlesNL r

/-- Number of `<title>` elements among the direct children of an element. -/
def titleCount : Node → Nat
  | .elem _ _ ch => countTitlesNL ch
  | .text _ => 0

/-- Keys of the metadata dict are pairwise distinct. -/
def keysNodup (m : Metadata) : Prop :=
  List.Nodup (List.map Prod.fst m)

/-! Part 8: concrete instances used by witnesses and counterexamples -/

def renderW : String → Bool → String → Node → String := fun _ _ dt _ => dt

/-- An output file whose external write reports the number of characters
written. -/
def writeLen : String → Except String Nat := fun c => .ok c.length

def noOutW : Option (String → Except String Unit) := none

/-- A filter that appends a marker attribute to the body it is given. -/
def markFilter (k : String) : Node → Except String Node
  | .elem t a ch => .ok (.elem t (a ++ [(k, k)]) ch)
  | n => .ok n

/-- A filter that raises. -/
def failFilter : Node → Except String Node := fun _ => .error "boom"

def sIsoW : Spider String :=
  ⟨[], fun _ => [.yield_ (.text "x")], fun _ => none, []⟩

def docIsoW : Node :=
  assemble [] (.elem "body" [] (.cons (.text "x") .nil))

def sChainW : Spider String :=
  ⟨[], fun _ => [.yield_ (.text "x")], fun _ => none,
    [markFilter "m1", markFilter "m2", markFilter "m3"]⟩

def bChain1 : Node := .elem "body" [("m1", "m1")] (.cons (.text "x") .nil)

def sFailW : Spider String :=
  ⟨[], fun _ => [.yield_ (.text "x")], fun _ => none,
    [markFilter "m1", failFilter, markFilter "m3"]⟩

def sParseFailW : Spider String :=
  ⟨[], fun _ => [], fun _ => some "boom", []⟩

def sFilterFailW : Spider String :=
  ⟨[], fun _ => [], fun _ => none, [failFilter]⟩

def sOutW : Spider String :=
  ⟨[], fun _ => [.yield_ (.text "x")], fun _ => none, []⟩

def docOutW : Node :=
  assemble [] (.elem "body" [] (.cons (.text "x") .nil))

def sTitleW : Spider String :=
  ⟨[], fun _ => [.setMeta "title" "A", .setMeta "author" "B", .yield_ (.text "x")],
    fun _ => none, []⟩

def docTitleW : Node :=
  assemble [("title", "A"), ("author", "B")] (.elem "body" [] (.cons (.text "x") .nil))

def exNet : String → HttpResponse :=
  fun _ => ⟨"<a href=/story/2></a>", "https://example.com/story/1"⟩

def exParse : String → Node :=
  fun _ => .elem "a" [("href", "/story/2")] .nil

/-- The same spider with its parse run rewritten as an explicit two-phase
producer: first every yielded element, then every metadata write. -/
def phasedSpider {ε : Type} (s : Spider ε) : Spider ε :=
  { s with parseEvents := fun u => phasedEvents (s.parseEvents u) }

/-! Part 9: supporting lemmas -/

theorem genEntries_eq_map (m : Metadata) :
    genEntries m =
      List.map (fun p => if p.1 = "title" then titleElem p.2 else metaElem p.1 p.2) m := by
  induction m with
  | nil => rfl
  | cons p rest ih => cases p with | mk a b => simp [genEntries, ih]

theorem applyFilters_append {ε : Type} (xs ys : List (Node → Except ε Node)) (b : Node) :
    applyFilters (xs ++ ys) b =
      match applyFilters xs b with
      | .ok b2 => applyFilters ys b2
      | .error e => .error e := by
  induction xs generalizing b with
  | nil => rfl
  | cons f rest ih =>
    simp only [List.cons_append, applyFilters]
    cases f b with
    | ok b2 => exact ih b2
    | error e => rfl

theorem metaAfter_noWrites (evs : List ParseEvent) (m : Metadata)
    (h : noMetaWrites evs = true) : metaAfter m evs = m := by
  induction evs generalizing m with
  | nil => rfl
  | cons e rest ih =>
    cases e with
    | yield_ n =>
      simp only [noMetaWrites, List.all_cons, Bool.and_eq_true] at h
      exact ih m h.2
    | setMeta k v => simp [noMetaWrites] at h

/-! Part 10: the claims -/

/-- Claim C1: a second crawl on the same Spider instance whose parse writes no
metadata produces a head holding only the charset element — crawl never reads
the instance's previous metadata (it clears the dict before parsing), so no
entry of an earlier crawl can leak into the new head. -/
theorem crawl_metadata_isolation {ε ρ : Type}
    (render : String → Bool → String → Node → String)
    (s : Spider ε) (stale : Metadata) (url : String)
    (output : Option (String → Except ε ρ)) (doc : Node)
    (hno : noMetaWrites (s.parseEvents url) = true)
    (hdoc : crawlDoc {s with metadata := stale} url = .ok doc) :
    crawl render {s with metadata := stale} url output = crawl render s url output ∧
    getHead doc = some (.elem "head" [] (.cons charsetMeta .nil)) := by
  refine ⟨rfl, ?_⟩
  simp only [crawlDoc] at hdoc
  cases hp : s.parseErr url with
  | some e => rw [hp] at hdoc; exact absurd hdoc (by simp)
  | none =>
    rw [hp] at hdoc
    cases hf : applyFilters s.filters (bodyNode {s with metadata := stale} url) with
    | error e => rw [hf] at hdoc; exact absurd hdoc (by simp)
    | ok b2 =>
      rw [hf] at hdoc
      simp only [Except.ok.injEq] at hdoc
      rw [← hdoc, metaAfter_noWrites _ _ hno]
      rfl

/-- Claim C1 witness: a concrete no-metadata second crawl on an instance with
a stale title entry yields a charset-only head, and the stale dict is
irrelevant to the crawl. -/
theorem crawl_metadata_isolation_witness :
    crawl renderW {sIsoW with metadata := [("title", "stale")]} "u" noOutW =
      crawl renderW sIsoW "u" noOutW ∧
    getHead docIsoW = some (.elem "head" [] (.cons charsetMeta .nil)) :=
  crawl_metadata_isolation renderW sIsoW [("title", "stale")] "u" noOutW docIsoW rfl rfl

/-- Claim C2: the metadata projection emits the charset element first and then
exactly one head element per metadata entry in insertion order — the `title`
entry as a title element wrapping its value, every other entry as a generic
meta element with `name`/`content` — so it is an order-preserving one-to-one
image of the mapping and the element count is `1 + |M|`. -/
theorem generate_meadata_elements_spec (m : Metadata) :
    generate_meadata_elements m =
      charsetMeta ::
        List.map (fun p => if p.1 = "title" then titleElem p.2 else metaElem p.1 p.2) m ∧
    (generate_meadata_elements m).length = 1 + m.length := by
  constructor
  · rw [generate_meadata_elements, genEntries_eq_map]
  · rw [generate_meadata_elements, genEntries_eq_map]
    simp [Nat.add_comm]

/-- Claim C3: during a crawl the filter chain runs each configured filter
exactly once, in list order: a filter sitting after the sub-chain `fs1` is
invoked on exactly the cumulative result of `fs1` on the parsed body, and the
rest of the chain continues from its output. -/
theorem filter_chain_order {ε : Type} (s : Spider ε) (url : String)
    (fs1 fs2 : List (Node → Except ε Node)) (f : Node → Except ε Node) (b1 : Node)
    (hfs : s.filters = fs1 ++ f :: fs2)
    (herr : s.parseErr url = none)
    (h1 : applyFilters fs1 (bodyNode s url) = .ok b1) :
    crawlDoc s url =
      match f b1 with
      | .error e => .error e
      | .ok b2 =>
        match applyFilters fs2 b2 with
        | .error e => .error e
        | .ok b3 => .ok (assemble (crawlMeta s url) b3) := by
  simp only [crawlDoc, herr, hfs]
  rw [applyFilters_append, h1]
  cases hfb : f b1 with
  | error e => simp [applyFilters, hfb]
  | ok b2 =>
    cases hrest : applyFilters fs2 b2 with
    | error e => simp [applyFilters, hfb, hrest]
    | ok b3 => simp [applyFilters, hfb, hrest, crawlMeta]

/-- Claim C3 witness: a three-filter chain of marker filters runs in order,
the final body carrying the markers in configured order. -/
theorem filter_chain_order_witness :
    crawlDoc sChainW "u" =
      .ok (assemble []
        (.elem "body" [("m1", "m1"), ("m2", "m2"), ("m3", "m3")]
          (.cons (.text "x") .nil))) :=
  filter_chain_order sChainW "u" [markFilter "m1"] [markFilter "m3"]
    (markFilter "m2") bChain1 rfl rfl rfl

/-- Claim C4: a filter that raises aborts the crawl: the raised error is what
`crawl` reports, and the result does not depend on the rest of the chain
(later filters are never invoked), on the serializer, or on the output file —
projection, assembly and serialization never run and no output is produced. -/
theorem filter_error_aborts {ε ρ : Type}
    (render : String → Bool → String → Node → String)
    (s : Spider ε) (url : String) (output : Option (String → Except ε ρ))
    (fs1 fs2 : List (Node → Except ε Node)) (fbad : Node → Except ε Node)
    (b1 : Node) (e : ε)
    (hfs : s.filters = fs1 ++ fbad :: fs2)
    (herr : s.parseErr url = none)
    (h1 : applyFilters fs1 (bodyNode s url) = .ok b1)
    (hb : fbad b1 = .error e) :
    crawl render s url output = (.error e, crawlMeta s url) := by
  have hd : crawlDoc s url = .error e := by
    simp only [crawlDoc, herr, hfs]
    rw [applyFilters_append, h1]
    simp [applyFilters, hb]
  simp [crawl, hd]

/-- Claim C4 witness: with a chain whose middle filter raises, the crawl
reports exactly that error and produces no document. -/
theorem filter_error_aborts_witness :
    crawl renderW sFailW "u" noOutW = (.error "boom", crawlMeta sFailW "u") :=
  filter_error_aborts renderW sFailW "u" noOutW [markFilter "m1"] [markFilter "m3"]
    failFilter bChain1 "boom" rfl rfl rfl rfl

/-- Claim C5: for the same spider state and inputs, the string-returning crawl
and the write-to-output-file crawl hand the very same serialized text to their
output medium: a sink that records what is written to it receives exactly the
string the sink-less crawl returns (and both fail identically otherwise). -/
theorem dual_output_equivalence {ε : Type}
    (render : String → Bool → String → Node → String)
    (s : Spider ε) (url : String) :
    (crawl render s url (some (fun c => Except.ok c))).1 =
      Except.map
        (fun r =>
          match r with
          | CrawlResult.str o => CrawlResult.written o
          | CrawlResult.written w => CrawlResult.written w)
        (crawl render s url (none : Option (String → Except ε String))).1 := by
  cases hd : crawlDoc s url with
  | error e => simp [crawl, hd, Except.map]
  | ok doc => simp [crawl, hd, Except.map]

theorem splitSchemeSep_append_sep (sch tail : List Char) :
    (splitSchemeSep (sch ++ ':' :: '/' :: '/' :: tail)).isSome = true := by
  induction sch with
  | nil => simp [splitSchemeSep]
  | cons c cs ih =>
    simp only [List.cons_append, splitSchemeSep]
    split
    · rfl
    · cases h : splitSchemeSep (cs ++ ':' :: '/' :: '/' :: tail) with
      | none => simp [h] at ih
      | some p => simp [h]

theorem urljoinL_absolute (base rel : List Char)
    (hb : (splitSchemeSep base).isSome = true) :
    (splitSchemeSep (urljoinL base rel)).isSome = true := by
  unfold urljoinL
  split
  · assumption
  · split
    · rename_i heq
      rw [heq] at hb
      exact absurd hb (by simp)
    · split
      · exact splitSchemeSep_append_sep _ _
      · exact splitSchemeSep_append_sep _ _
      · exact splitSchemeSep_append_sep _ _

/-- Resolution against an absolute base always yields an absolute URL. -/
theorem urljoin_absolute (base rel : String) (hb : urlIsAbsolute base = true) :
    urlIsAbsolute (urljoin base rel) = true :=
  urljoinL_absolute base.toList rel.toList hb

theorem linkAttrs_absolutize (base : String) (attrs : List (String × String)) :
    List.map Prod.snd
      (List.filter (fun p => isLinkAttr p.1)
        (List.map (fun p => if isLinkAttr p.1 then (p.1, urljoin base p.2) else p) attrs)) =
    List.map (urljoin base)
      (List.map Prod.snd (List.filter (fun p => isLinkAttr p.1) attrs)) := by
  induction attrs with
  | nil => rfl
  | cons p rest ih =>
    by_cases h : isLinkAttr p.1 = true
    · simp [h, ih]
    · simp only [Bool.not_eq_true] at h
      simp [h, ih]

mutual

theorem nodeLinks_make_links_absolute (base : String) :
    (d : Node) →
      nodeLinks (make_links_absolute base d) = List.map (urljoin base) (nodeLinks d)
  | .text s => rfl
  | .elem t attrs ch => by
    simp only [make_links_absolute, nodeLinks, List.map_append]
    rw [listLinks_make_links_absolute base ch, linkAttrs_absolutize base attrs]

theorem listLinks_make_links_absolute (base : String) :
    (nl : NodeList) →
      listLinks (make_links_absolute_list base nl) = List.map (urljoin base) (listLinks nl)
  | .nil => rfl
  | .cons n r => by
    simp only [make_links_absolute_list, listLinks, List.map_append]
    rw [nodeLinks_make_links_absolute base n, listLinks_make_links_absolute base r]

end

/-- Claim C6: `fetch` anchors the fetched document at the final post-redirect
response URL and rewrites every link against it, so each link of the returned
document is the resolution of the corresponding source link and, the base
being absolute, every link in the returned document is absolute. -/
theorem fetch_absolutizes (net : String → HttpResponse) (parseHtml : String → Node)
    (url : String) (hb : urlIsAbsolute (net url).url = true) :
    nodeLinks (fetch net parseHtml url) =
      List.map (urljoin (net url).url) (nodeLinks (parseHtml (net url).content)) ∧
    ∀ l ∈ nodeLinks (fetch net parseHtml url), urlIsAbsolute l = true := by
  have h1 : nodeLinks (fetch net parseHtml url) =
      List.map (urljoin (net url).url) (nodeLinks (parseHtml (net url).content)) :=
    nodeLinks_make_links_absolute _ _
  refine ⟨h1, ?_⟩
  intro l hl
  rw [h1] at hl
  rcases List.mem_map.1 hl with ⟨l0, _, rfl⟩
  exact urljoin_absolute _ _ hb

/-- Claim C6 witness: a page whose final response URL is
`https://example.com/story/1` and which carries the relative link `/story/2`
comes back with that link rewritten to `https://example.com/story/2`. -/
theorem fetch_absolutizes_witness :
    urlIsAbsolute "https://example.com/story/1" = true ∧
    nodeLinks (fetch exNet exParse "https://example.com/story/1") =
      List.map (urljoin "https://example.com/story/1")
        (nodeLinks (exParse "<a href=/story/2></a>")) ∧
    fetch exNet exParse "https://example.com/story/1" =
      .elem "a" [("href", "https://example.com/story/2")] .nil := by
  refine ⟨rfl, (fetch_absolutizes exNet exParse "https://example.com/story/1" rfl).1, ?_⟩
  rfl

theorem metaAfter_append (m : Metadata) (a b : List ParseEvent) :
    metaAfter m (a ++ b) = metaAfter (metaAfter m a) b := by
  simp [metaAfter]

theorem metaAfter_yieldFilter (evs : List ParseEvent) (m : Metadata) :
    metaAfter m (List.filter isYieldEv evs) = m := by
  induction evs generalizing m with
  | nil => rfl
  | cons e rest ih =>
    cases e with
    | yield_ n =>
      have h : List.filter isYieldEv (ParseEvent.yield_ n :: rest) =
          ParseEvent.yield_ n :: List.filter isYieldEv rest := rfl
      rw [h]
      exact ih m
    | setMeta k v =>
      have h : List.filter isYieldEv (ParseEvent.setMeta k v :: rest) =
          List.filter isYieldEv rest := rfl
      rw [h]
      exact ih m

theorem metaAfter_setFilter (evs : List ParseEvent) (m : Metadata) :
    metaAfter m (List.filter isSetEv evs) = metaAfter m evs := by
  induction evs generalizing m with
  | nil => rfl
  | cons e rest ih =>
    cases e with
    | yield_ n =>
      have h : List.filter isSetEv (ParseEvent.yield_ n :: rest) =
          List.filter isSetEv rest := rfl
      rw [h]
      exact ih m
    | setMeta k v =>
      have h : List.filter isSetEv (ParseEvent.setMeta k v :: rest) =
          ParseEvent.setMeta k v :: List.filter isSetEv rest := rfl
      rw [h]
      exact ih (dictSet m k v)

theorem yields_yieldFilter (evs : List ParseEvent) :
    yields (List.filter isYieldEv evs) = yields evs := by
  induction evs with
  | nil => rfl
  | cons e rest ih =>
    cases e with
    | yield_ n =>
      have h : List.filter isYieldEv (ParseEvent.yield_ n :: rest) =
          ParseEvent.yield_ n :: List.filter isYieldEv rest := rfl
      rw [h]
      show n :: yields (List.filter isYieldEv rest) = n :: yields rest
      rw [ih]
    | setMeta k v =>
      have h : List.filter isYieldEv (ParseEvent.setMeta k v :: rest) =
          List.filter isYieldEv rest := rfl
      rw [h]
      exact ih

theorem yields_setFilter (evs : List ParseEvent) :
    yields (List.filter isSetEv evs) = [] := by
  induction evs with
  | nil => rfl
  | cons e rest ih =>
    cases e with
    | yield_ n =>
      have h : List.filter isSetEv (ParseEvent.yield_ n :: rest) =
          List.filter isSetEv rest := rfl
      rw [h]
      exact ih
    | setMeta k v =>
      have h : List.filter isSetEv (ParseEvent.setMeta k v :: rest) =
          ParseEvent.setMeta k v :: List.filter isSetEv rest := rfl
      rw [h]
      exact ih

theorem yields_phased (evs : List ParseEvent) : yields (phasedEvents evs) = yields evs := by
  rw [phasedEvents, yields, List.filterMap_append]
  show yields (List.filter isYieldEv evs) ++ yields (List.filter isSetEv evs) = yields evs
  rw [yields_yieldFilter, yields_setFilter, List.append_nil]

theorem metaAfter_phased (evs : List ParseEvent) (m : Metadata) :
    metaAfter m (phasedEvents evs) = metaAfter m evs := by
  rw [phasedEvents, metaAfter_append, metaAfter_yieldFilter, metaAfter_setFilter]

/-- Claim C7: the crawl pipeline realizes the two-phase contract for `parse`:
the generator is exhausted — every yielded node and every metadata write
taken — before filtering and metadata projection.  Hence replacing a parse
run by its explicit two-phase form (all yields first, then all metadata
writes) changes nothing about what `crawl` does: the projector always sees
the complete metadata and never runs interleaved with parse. -/
theorem crawl_two_phase {ε ρ : Type} (render : String → Bool → String → Node → String)
    (s : Spider ε) (url : String) (output : Option (String → Except ε ρ)) :
    crawl render (phasedSpider s) url output = crawl render s url output := by
  have hy : yields (phasedEvents (s.parseEvents url)) = yields (s.parseEvents url) :=
    yields_phased _
  have hm : metaAfter [] (phasedEvents (s.parseEvents url)) =
      metaAfter [] (s.parseEvents url) := metaAfter_phased _ _
  have hb : bodyNode (phasedSpider s) url = bodyNode s url := by
    show Node.elem "body" [] (NodeList.ofList (yields (phasedEvents (s.parseEvents url)))) =
      Node.elem "body" [] (NodeList.ofList (yields (s.parseEvents url)))
    rw [hy]
  have hd : crawlDoc (phasedSpider s) url = crawlDoc s url := by
    show (match s.parseErr url with
      | some e => Except.error e
      | none =>
        match applyFilters s.filters (bodyNode (phasedSpider s) url) with
        | .error e => .error e
        | .ok b2 =>
          .ok (assemble (metaAfter [] (phasedEvents (s.parseEvents url))) b2)) =
      (match s.parseErr url with
      | some e => Except.error e
      | none =>
        match applyFilters s.filters (bodyNode s url) with
        | .error e => .error e
        | .ok b2 => .ok (assemble (metaAfter [] (s.parseEvents url)) b2))
    rw [hb, hm]
  have hcm : crawlMeta (phasedSpider s) url = crawlMeta s url := hm
  simp only [crawl]
  rw [hd, hcm]

/-- Claim C8 counterexample: two crawls that fail in different stages — one
during parse, one during filtering — report the identical error value, so the
error `crawl` reports does not name the failed stage. -/
theorem crawl_error_unnamed_stage :
    crawl renderW sParseFailW "u" noOutW = (.error "boom", []) ∧
    crawl renderW sFilterFailW "u" noOutW = (.error "boom", []) ∧
    sParseFailW.parseErr "u" = some "boom" ∧
    sFilterFailW.parseErr "u" = none ∧
    applyFilters sFilterFailW.filters (bodyNode sFilterFailW "u") = .error "boom" :=
  ⟨rfl, rfl, rfl, rfl, rfl⟩

/-- Claim C8 (amended): whenever a pipeline stage raises — parse, a filter, or
the output write — `crawl` reports exactly that error value to its caller and
never silently swallows it; the propagated value is the collaborator's own
error, unmodified. -/
theorem crawl_error_propagation {ε ρ : Type}
    (render : String → Bool → String → Node → String)
    (s : Spider ε) (url : String) (e : ε) :
    (s.parseErr url = some e →
      ∀ output : Option (String → Except ε ρ),
        crawl render s url output = (.error e, crawlMeta s url)) ∧
    (s.parseErr url = none →
      applyFilters s.filters (bodyNode s url) = .error e →
      ∀ output : Option (String → Except ε ρ),
        crawl render s url output = (.error e, crawlMeta s url)) ∧
    (∀ write : String → Except ε ρ, ∀ doc : Node,
      crawlDoc s url = .ok doc →
      write (render "html" true "<!doctype html>" doc) = .error e →
      crawl render s url (some write) = (.error e, crawlMeta s url)) := by
  refine ⟨?_, ?_, ?_⟩
  · intro h output
    have hd : crawlDoc s url = .error e := by simp only [crawlDoc, h]
    simp [crawl, hd]
  · intro h hf output
    have hd : crawlDoc s url = .error e := by simp only [crawlDoc, h, hf]
    simp [crawl, hd]
  · intro write doc hdoc hw
    simp [crawl, hdoc, hw]

/-- Claim C8 witness: a parse error propagates out of a concrete crawl as the
raised value. -/
theorem crawl_error_propagation_witness :
    crawl renderW sParseFailW "u" (some writeLen) =
      (.error "boom", crawlMeta sParseFailW "u") :=
  (crawl_error_propagation renderW sParseFailW "u" "boom").1 rfl (some writeLen)

/-- Claim C9: a successful crawl given an output file writes the serialized
document to it and returns the result of the external write call (not the
content); without an output file it returns the serialized HTML string. -/
theorem crawl_output_file {ε ρ : Type}
    (render : String → Bool → String → Node → String)
    (s : Spider ε) (url : String) (write : String → Except ε ρ) (r : ρ) (doc : Node)
    (hdoc : crawlDoc s url = .ok doc)
    (hw : write (render "html" true "<!doctype html>" doc) = .ok r) :
    crawl render s url (some write) = (.ok (.written r), crawlMeta s url) ∧
    crawl render s url (none : Option (String → Except ε ρ)) =
      (.ok (.str (render "html" true "<!doctype html>" doc)), crawlMeta s url) := by
  constructor <;> simp [crawl, hdoc, hw]

/-- Claim C9 witness: a concrete crawl with an output file whose write reports
the number of characters written returns that write-result, while the
file-less crawl returns the serialized string itself. -/
theorem crawl_output_file_witness :
    crawl renderW sOutW "u" (some writeLen) = (.ok (.written 15), crawlMeta sOutW "u") ∧
    crawl renderW sOutW "u" (none : Option (String → Except String Nat)) =
      (.ok (.str "<!doctype html>"), crawlMeta sOutW "u") :=
  crawl_output_file renderW sOutW "u" writeLen 15 docOutW rfl rfl

theorem dictSet_keysNodup (m : Metadata) (k v : String) (h : keysNodup m) :
    keysNodup (dictSet m k v) := by
  unfold dictSet
  split
  · have heq : List.map Prod.fst (List.map (fun p => if p.1 = k then (k, v) else p) m) =
        List.map Prod.fst m := by
      rw [List.map_map]
      apply List.map_congr_left
      intro p _
      by_cases hpk : p.1 = k
      · simp [hpk]
      · simp [hpk]
    unfold keysNodup
    rw [heq]
    exact h
  · rename_i hany
    have hk : k ∉ List.map Prod.fst m := by
      intro hmem
      rcases List.mem_map.1 hmem with ⟨p, hp, hpk⟩
      exact hany (List.any_eq_true.2 ⟨p, hp, by simp [hpk]⟩)
    unfold keysNodup
    rw [List.map_append]
    simp [List.nodup_append, hk]
    exact h

theorem metaAfter_keysNodup (evs : List ParseEvent) (m : Metadata) (h : keysNodup m) :
    keysNodup (metaAfter m evs) := by
  induction evs generalizing m with
  | nil => exact h
  | cons e rest ih =>
    cases e with
    | yield_ n => exact ih m h
    | setMeta k v => exact ih _ (dictSet_keysNodup m k v h)

theorem countTitlesNL_ofList (l : List Node) :
    countTitlesNL (NodeList.ofList l) = List.countP isTitleNode l := by
  induction l with
  | nil => rfl
  | cons n r ih =>
    cases h : isTitleNode n <;>
      simp [NodeList.ofList, countTitlesNL, List.countP_cons, ih, h, Nat.add_comm]

theorem countP_genEntries (m : Metadata) :
    List.countP isTitleNode (genEntries m) =
      List.countP (fun q => decide (q.1 = "title")) m := by
  induction m with
  | nil => rfl
  | cons p rest ih =>
    cases p with
    | mk a b =>
      by_cases h : a = "title"
      · simp [genEntries, h, List.countP_cons, ih, isTitleNode, titleElem]
      · simp [genEntries, h, List.countP_cons, ih, isTitleNode, metaElem]

theorem countP_title_le_one (m : Metadata) (h : keysNodup m) :
    List.countP (fun q => decide (q.1 = "title")) m ≤ 1 := by
  induction m with
  | nil => simp
  | cons p rest ih =>
    rw [keysNodup, List.map_cons, List.nodup_cons] at h
    by_cases hp : p.1 = "title"
    · have h0 : List.countP (fun q => decide (q.1 = "title")) rest = 0 := by
        rw [List.countP_eq_zero]
        intro q hq
        simp only [decide_eq_true_eq]
        intro hq1
        apply h.1
        rw [hp, ← hq1]
        exact List.mem_map_of_mem Prod.fst hq
      simp [List.countP_cons, hp, h0]
    · have := ih h.2
      simp only [List.countP_cons, hp]
      simpa using this

/-- Claim C10: the head generated by any crawl contains at most one title
element: the metadata dict has pairwise-distinct keys, so at most one entry
has the key `title`, and only that entry projects to a title element — the
spec's multiple-title edge case is unreachable through the crawl interface. -/
theorem head_single_title {ε : Type} (s : Spider ε) (url : String) (doc hd : Node)
    (hdoc : crawlDoc s url = .ok doc) (hh : getHead doc = some hd) :
    titleCount hd ≤ 1 := by
  simp only [crawlDoc] at hdoc
  cases hp : s.parseErr url with
  | some e => rw [hp] at hdoc; exact absurd hdoc (by simp)
  | none =>
    rw [hp] at hdoc
    cases hf : applyFilters s.filters (bodyNode s url) with
    | error e => rw [hf] at hdoc; exact absurd hdoc (by simp)
    | ok b2 =>
      rw [hf] at hdoc
      simp only [Except.ok.injEq] at hdoc
      rw [← hdoc] at hh
      simp only [assemble, getHead, Option.some.injEq] at hh
      rw [← hh]
      have hnodup : keysNodup (metaAfter [] (s.parseEvents url)) :=
        metaAfter_keysNodup _ [] (by simp [keysNodup])
      simp only [titleCount, countTitlesNL_ofList, generate_meadata_elements,
        List.countP_cons]
      rw [countP_genEntries]
      have hc : isTitleNode charsetMeta = false := rfl
      rw [hc]
      simpa using countP_title_le_one _ hnodup

/-- Claim C10 witness: a crawl that writes a title and an author entry
produces a head with exactly one title element, hence at most one. -/
theorem head_single_title_witness :
    titleCount (.elem "head" []
      (.cons charsetMeta
        (.cons (titleElem "A") (.cons (metaElem "author" "B") .nil)))) ≤ 1 :=
  head_single_title sTitleW "u" docTitleW
    (.elem "head" []
      (.cons charsetMeta
        (.cons (titleElem "A") (.cons (metaElem "author" "B") .nil))))
    rfl rfl

end FictionScraper
